import Mathlib

/-!
# Verification of the upy-packager package pipeline

A shallow embedding, in Lean, of the JavaScript sources of `arduino/upy-packager`:
the repository archiver (`logic/repository-archiver.js`), the MicroPython REPL
extensions (`logic/micropython-extensions.js`), the package installer
(`logic/package-installer.js`), and the packager orchestrator (`logic/packager.js`).

JavaScript strings are modelled as lists of characters (`Str`), byte buffers as
lists of naturals, and the board/network effects as explicit parameters
(an `exists` predicate for the board filesystem, response lists for per-chunk
CRC verdicts, abstract file-content maps for hashing).
-/

set_option autoImplicit false

namespace UpyPackager

/-- JavaScript strings are modelled as lists of characters. -/
abbrev Str := List Char

/-- Coerce a Lean string literal to the `Str` model. -/
def str (s : String) : Str := s.data

/-- JS `s.split(sep)` for a one-character separator: always returns a
non-empty list of (possibly empty) segments. -/
def splitOnChar (sep : Char) : Str → List Str
  | [] => [[]]
  | c :: cs =>
    if c = sep then
      [] :: splitOnChar sep cs
    else
      match splitOnChar sep cs with
      | [] => [[c]]
      | p :: ps => (c :: p) :: ps

/-- JS `s.replace(pat, rep)` with a string pattern: replaces only the first
occurrence of `pat`, and returns `s` unchanged when `pat` does not occur. -/
def replaceFirstSub (pat rep : Str) : Str → Str
  | [] => if pat.isPrefixOf [] then rep else []
  | c :: cs =>
    if pat.isPrefixOf (c :: cs) then rep ++ (c :: cs).drop pat.length
    else c :: replaceFirstSub pat rep cs

/-- `path.posix.join(a, b)` for the well-formed inputs used by the installer. -/
def pathJoin (a b : Str) : Str := a ++ '/' :: b

/-- `path.basename(p)`: the last `/`-separated component. -/
def basename (p : Str) : Str := (splitOnChar '/' p).getLastD []

/-! ## CRC32 (model of the `crc-32` npm module used by `getCRC32`)

`micropython-extensions.js` computes `CRC32.buf(data) >>> 0` and serialises it
big-endian into four bytes. We model the standard reflected CRC-32
(polynomial `0xEDB88320`) that the `crc-32` module implements. -/

/-- One bit step of the reflected CRC-32 computation. -/
def crc32UpdateBit (c : Nat) : Nat :=
  if c % 2 = 1 then Nat.xor (c / 2) 0xEDB88320 else c / 2

/-- Fold one input byte into the running CRC. -/
def crc32UpdateByte (c b : Nat) : Nat :=
  (List.range 8).foldl (fun acc _ => crc32UpdateBit acc) (Nat.xor c (b % 256))

/-- CRC-32 of a byte list, as an unsigned 32-bit value (JS `CRC32.buf(data) >>> 0`). -/
def crc32 (data : List Nat) : Nat :=
  Nat.xor (data.foldl crc32UpdateByte 0xFFFFFFFF) 0xFFFFFFFF

/-- `getCRC32(data)`: the checksum as four big-endian bytes
(`DataView.setUint32` on a 4-byte buffer). -/
def getCRC32 (data : List Nat) : List Nat :=
  let c := crc32 data
  [c / 2 ^ 24 % 256, c / 2 ^ 16 % 256, c / 2 ^ 8 % 256, c % 256]

/-! ## The chunked writer `writeFile` (micropython-extensions.js, lines 201-258)

The board's per-chunk verdict (`print(1 if validate_crc(d) else 0)`) is modelled
by a list of booleans, one consumed per CRC attempt.  The loop state is the file
offset `i` and the current `chunkSize`; on a `false` verdict the chunk size is
halved and the same offset retried, on a `true` verdict `w(d[:-4])` runs and the
offset advances.  The outcome records the payloads passed to `w` (in order) and
the chunk size used at each attempt. -/

/-- Result of a `writeFile` run: the written payloads on success, the failing
byte range when chunk-size reductions are exhausted (`CRC32 check failed at byte
i .. chunkEndIndex`), or `pending` when the modelled verdict list ran out. -/
inductive WriteResult where
  | ok (payloads : List (List Nat))
  | crcError (offset endOffset : Nat)
  | pending
deriving DecidableEq

/-- Prepend a successfully written payload to the eventual result. -/
def consPayload (p : List Nat) : WriteResult → WriteResult
  | .ok ps => .ok (p :: ps)
  | r => r

/-- A `writeFile` run: its result plus the chunk size used at each CRC attempt. -/
structure WriteOutcome where
  result : WriteResult
  sizes : List Nat
deriving DecidableEq

/-- The `while (i < contentBuffer.length)` loop of `writeFile`.
`content` is the source file, the boolean list the board's CRC verdicts,
then the offset `i` and current `chunkSize`. -/
def writeFileLoop (content : List Nat) : List Bool → Nat → Nat → WriteOutcome
  | [], i, _ =>
    if i < content.length then ⟨.pending, []⟩ else ⟨.ok [], []⟩
  | true :: rs, i, chunkSize =>
    if i < content.length then
      -- crcCorrect: `w(d[:-4])` is executed and the offset advances
      let slice := (content.drop i).take chunkSize
      let d := slice ++ getCRC32 slice
      let payload := d.take (d.length - 4)
      let rest := writeFileLoop content rs (i + chunkSize) chunkSize
      ⟨consPayload payload rest.result, chunkSize :: rest.sizes⟩
    else ⟨.ok [], []⟩
  | false :: rs, i, chunkSize =>
    if i < content.length then
      -- CRC failure: halve the chunk size and retry the same offset
      if chunkSize / 2 < 1 then
        ⟨.crcError i (i + chunkSize), [chunkSize]⟩
      else
        let rest := writeFileLoop content rs i (chunkSize / 2)
        ⟨rest.result, chunkSize :: rest.sizes⟩
    else ⟨.ok [], []⟩

theorem getCRC32_length (data : List Nat) : (getCRC32 data).length = 4 := rfl

/-- The payload sent for a chunk is exactly the chunk: `d[:-4]` drops the
4-byte CRC suffix appended by `getCRC32`. -/
theorem payload_eq_slice (slice : List Nat) :
    (slice ++ getCRC32 slice).take ((slice ++ getCRC32 slice).length - 4) = slice := by
  rw [List.length_append, getCRC32_length, Nat.add_sub_cancel]
  exact List.take_left slice (getCRC32 slice)

theorem writeFileLoop_true_step (content : List Nat) (rs : List Bool) (i chunkSize : Nat)
    (h : i < content.length) :
    writeFileLoop content (true :: rs) i chunkSize =
      ⟨consPayload ((content.drop i).take chunkSize)
          (writeFileLoop content rs (i + chunkSize) chunkSize).result,
        chunkSize :: (writeFileLoop content rs (i + chunkSize) chunkSize).sizes⟩ := by
  simp only [writeFileLoop, if_pos h, payload_eq_slice]

theorem writeFileLoop_false_step (content : List Nat) (rs : List Bool) (i chunkSize : Nat)
    (h : i < content.length) :
    writeFileLoop content (false :: rs) i chunkSize =
      if chunkSize / 2 < 1 then ⟨.crcError i (i + chunkSize), [chunkSize]⟩
      else ⟨(writeFileLoop content rs i (chunkSize / 2)).result,
        chunkSize :: (writeFileLoop content rs i (chunkSize / 2)).sizes⟩ := by
  simp only [writeFileLoop, if_pos h]

theorem writeFileLoop_exit (content : List Nat) (rs : List Bool) (i chunkSize : Nat)
    (h : ¬ i < content.length) :
    writeFileLoop content rs i chunkSize = ⟨.ok [], []⟩ := by
  match rs with
  | [] => simp only [writeFileLoop, if_neg h]
  | true :: rs => simp only [writeFileLoop, if_neg h]
  | false :: rs => simp only [writeFileLoop, if_neg h]

/-- Successful runs write the file suffix starting at the initial offset. -/
theorem writeFileLoop_flatten (content : List Nat) :
    ∀ (rs : List Bool) (i chunkSize : Nat) (ps : List (List Nat)),
      (writeFileLoop content rs i chunkSize).result = .ok ps →
      ps.flatten = content.drop i := by
  intro rs
  induction rs with
  | nil =>
    intro i chunkSize ps h
    by_cases hlt : i < content.length
    · simp [writeFileLoop, if_pos hlt] at h
    · rw [writeFileLoop_exit content [] i chunkSize hlt] at h
      cases h
      simp [List.drop_eq_nil_of_le (Nat.le_of_not_lt hlt)]
  | cons r rs ih =>
    intro i chunkSize ps h
    by_cases hlt : i < content.length
    · cases r with
      | true =>
        rw [writeFileLoop_true_step content rs i chunkSize hlt] at h
        rcases hrest : (writeFileLoop content rs (i + chunkSize) chunkSize).result with
          _ | _ | _
        · rw [hrest] at h
          simp only [consPayload, WriteResult.ok.injEq] at h
          subst h
          have hjoin := ih (i + chunkSize) chunkSize _ hrest
          simp only [List.flatten_cons, hjoin]
          rw [← List.drop_drop, List.take_append_drop]
        · rw [hrest] at h
          simp only [consPayload] at h
          exact WriteResult.noConfusion h
        · rw [hrest] at h
          simp only [consPayload] at h
          exact WriteResult.noConfusion h
      | false =>
        rw [writeFileLoop_false_step content rs i chunkSize hlt] at h
        split at h
        · simp at h
        · exact ih i (chunkSize / 2) ps h
    · rw [writeFileLoop_exit content (r :: rs) i chunkSize hlt] at h
      cases h
      simp [List.drop_eq_nil_of_le (Nat.le_of_not_lt hlt)]

/-- C3: for every input file and every pattern of per-chunk CRC verdicts under
which `writeFile` completes successfully, the concatenation of the payloads
written on the board via `write(d[:-4])`, in order, equals exactly the bytes of
the source file, with no gap, overlap, or reordering. -/
theorem writeFile_payload_concat (content : List Nat) (rs : List Bool) (ps : List (List Nat))
    (h : (writeFileLoop content rs 0 512).result = .ok ps) :
    ps.flatten = content := by
  simpa using writeFileLoop_flatten content rs 0 512 ps h

theorem writeFile_payload_concat_witness :
    (writeFileLoop [1, 2, 3] [true] 0 512).result = .ok [[1, 2, 3]] ∧
      ([[1, 2, 3]] : List (List Nat)).flatten = [1, 2, 3] :=
  ⟨by decide, writeFile_payload_concat [1, 2, 3] [true] [[1, 2, 3]] (by decide)⟩

/-- When the attempt trace is non-empty, its first entry is the chunk size the
loop was entered with. -/
theorem writeFileLoop_sizes_head (content : List Nat) (rs : List Bool) (i chunkSize : Nat) :
    (writeFileLoop content rs i chunkSize).sizes = [] ∨
      ∃ t, (writeFileLoop content rs i chunkSize).sizes = chunkSize :: t := by
  by_cases hlt : i < content.length
  · match rs with
    | [] => exact Or.inl (by simp [writeFileLoop, if_pos hlt])
    | true :: rs =>
      exact Or.inr ⟨_, by rw [writeFileLoop_true_step content rs i chunkSize hlt]⟩
    | false :: rs =>
      rw [writeFileLoop_false_step content rs i chunkSize hlt]
      split
      · exact Or.inr ⟨[], rfl⟩
      · exact Or.inr ⟨_, rfl⟩
  · exact Or.inl (by rw [writeFileLoop_exit content rs i chunkSize hlt])

/-- The chunk sizes used by consecutive CRC attempts never increase. -/
theorem writeFileLoop_sizes_antitone (content : List Nat) :
    ∀ (rs : List Bool) (i chunkSize : Nat),
      List.Chain' (fun a b => b ≤ a) (writeFileLoop content rs i chunkSize).sizes := by
  intro rs
  induction rs with
  | nil =>
    intro i chunkSize
    by_cases hlt : i < content.length
    · simp [writeFileLoop, if_pos hlt]
    · rw [writeFileLoop_exit content [] i chunkSize hlt]
      simp
  | cons r rs ih =>
    intro i chunkSize
    by_cases hlt : i < content.length
    · cases r with
      | true =>
        rw [writeFileLoop_true_step content rs i chunkSize hlt]
        simp only
        rcases writeFileLoop_sizes_head content rs (i + chunkSize) chunkSize with hnil | ⟨t, ht⟩
        · rw [hnil]; simp
        · rw [ht]
          exact List.Chain'.cons (le_refl chunkSize) (ht ▸ ih (i + chunkSize) chunkSize)
      | false =>
        rw [writeFileLoop_false_step content rs i chunkSize hlt]
        split
        · simp
        · simp only
          rcases writeFileLoop_sizes_head content rs i (chunkSize / 2) with hnil | ⟨t, ht⟩
          · rw [hnil]; simp
          · rw [ht]
            exact List.Chain'.cons (Nat.div_le_self chunkSize 2) (ht ▸ ih i (chunkSize / 2))
    · rw [writeFileLoop_exit content (r :: rs) i chunkSize hlt]
      simp

/-- C4: in each iteration of `writeFile`'s chunk loop at an offset still inside
the file, a CRC failure (`0`) halves the chunk size and retries the same offset
without advancing, aborting with the failing byte range `i .. i + chunkSize`
once the halved size drops below 1; a CRC success (`1`) writes `d[:-4]` — which
is exactly the chunk `content[i : i + chunkSize]` — and advances the offset by
the current chunk size.  Consequently the sequence of chunk sizes used during a
single call never increases. -/
theorem writeFile_chunk_step (content : List Nat) (i chunkSize : Nat) (rs : List Bool)
    (h : i < content.length) :
    (chunkSize / 2 < 1 →
      writeFileLoop content (false :: rs) i chunkSize =
        ⟨.crcError i (i + chunkSize), [chunkSize]⟩) ∧
    (1 ≤ chunkSize / 2 →
      writeFileLoop content (false :: rs) i chunkSize =
        ⟨(writeFileLoop content rs i (chunkSize / 2)).result,
          chunkSize :: (writeFileLoop content rs i (chunkSize / 2)).sizes⟩) ∧
    (writeFileLoop content (true :: rs) i chunkSize =
      ⟨consPayload ((content.drop i).take chunkSize)
          (writeFileLoop content rs (i + chunkSize) chunkSize).result,
        chunkSize :: (writeFileLoop content rs (i + chunkSize) chunkSize).sizes⟩) ∧
    List.Chain' (fun a b => b ≤ a) (writeFileLoop content (false :: rs) i chunkSize).sizes ∧
    List.Chain' (fun a b => b ≤ a) (writeFileLoop content (true :: rs) i chunkSize).sizes := by
  refine ⟨fun hsmall => ?_, fun hbig => ?_, ?_, ?_, ?_⟩
  · rw [writeFileLoop_false_step content rs i chunkSize h, if_pos hsmall]
  · rw [writeFileLoop_false_step content rs i chunkSize h, if_neg (Nat.not_lt.mpr hbig)]
  · exact writeFileLoop_true_step content rs i chunkSize h
  · exact writeFileLoop_sizes_antitone content (false :: rs) i chunkSize
  · exact writeFileLoop_sizes_antitone content (true :: rs) i chunkSize

theorem writeFile_chunk_step_witness :
    writeFileLoop [7, 8] [false] 0 1 = ⟨.crcError 0 1, [1]⟩ ∧
      writeFileLoop [7, 8] [false, true] 0 4 =
        ⟨(writeFileLoop [7, 8] [true] 0 2).result, 4 :: (writeFileLoop [7, 8] [true] 0 2).sizes⟩ := by
  have h := writeFile_chunk_step [7, 8] 0 1 [] (by decide)
  have h2 := writeFile_chunk_step [7, 8] 0 4 [true] (by decide)
  exact ⟨h.1 (by decide), h2.2.1 (by decide)⟩

/-! ## REPL reply extraction (micropython-extensions.js, lines 122-132)

`extractREPLMessage(out, stripTrailingLinebreak = true)` returns
`out.slice(2, -3)`, then optionally removes a trailing `\r\n` added by the
remote `print()`.  The reply template is `"OK${msg}\x04${err}\x04>"`.
Note the function performs no validation of the `OK` prefix. -/

/-- `extractREPLMessage` from micropython-extensions.js: `out.slice(2, -3)`
followed by the optional `\r\n` trim. -/
def extractREPLMessage (out : Str) (stripTrailingLinebreak : Bool) : Str :=
  let output := (out.drop 2).take (out.length - 5)
  if stripTrailingLinebreak && (str "\r\n").isSuffixOf output then
    output.take (output.length - 2)
  else output

/-- The `\x04${err}\x04>` tail of a reply whose stderr component is empty. -/
def replySuffix : Str := str "\x04\x04>"

/-- C9 counterexample: a raw reply that does not start with `OK` is not
rejected — `extractREPLMessage` still returns a (mangled) message instead of
raising a protocol error. -/
theorem extractREPLMessage_accepts_non_ok :
    extractREPLMessage (str "Traceback" ++ replySuffix) false = str "aceback" ∧
      (str "OK").isPrefixOf (str "Traceback" ++ replySuffix) = false := by
  constructor
  · rfl
  · decide

/-- C9 (amended): `extractREPLMessage` performs no framing validation: it
unconditionally strips the first two and the last three characters of the
reply, whatever the two leading characters are, and, when requested, also a
trailing `\r\n`.  In particular a well-framed reply `"OK" ++ msg ++ "\x04\x04>"`
(empty stderr) yields exactly `msg`. -/
theorem extractREPLMessage_strips (pre msg : Str) (h : pre.length = 2) :
    extractREPLMessage (pre ++ msg ++ replySuffix) false = msg ∧
      extractREPLMessage (pre ++ (msg ++ str "\r\n") ++ replySuffix) true = msg := by
  have hout : ∀ inner : Str, (pre ++ inner ++ replySuffix).drop 2 = inner ++ replySuffix :=
    fun inner => by rw [List.append_assoc]; exact List.drop_left' h
  have hslen : replySuffix.length = 3 := rfl
  have hlen : ∀ inner : Str,
      (pre ++ inner ++ replySuffix).length - 5 = inner.length := by
    intro inner
    rw [List.length_append, List.length_append, h, hslen]
    omega
  have hcore : ∀ inner : Str,
      ((pre ++ inner ++ replySuffix).drop 2).take ((pre ++ inner ++ replySuffix).length - 5)
        = inner := by
    intro inner
    rw [hout inner, hlen inner]
    exact List.take_left inner replySuffix
  constructor
  · simp only [extractREPLMessage]
    rw [hcore msg]
    simp
  · have hsuf : (str "\r\n").isSuffixOf (msg ++ str "\r\n") = true := by
      rw [List.isSuffixOf_iff_suffix]
      exact List.suffix_append msg (str "\r\n")
    simp only [extractREPLMessage]
    rw [hcore (msg ++ str "\r\n"), hsuf]
    simp only [Bool.true_and, if_true, List.length_append]
    have hm : msg.length + (str "\r\n").length - 2 = msg.length := by simp [str]
    rw [hm]
    exact List.take_left msg (str "\r\n")

theorem extractREPLMessage_strips_witness :
    extractREPLMessage (str "OK" ++ str "123" ++ replySuffix) false = str "123" ∧
      extractREPLMessage (str "OK" ++ (str "123" ++ str "\r\n") ++ replySuffix) true = str "123" :=
  extractREPLMessage_strips (str "OK") (str "123") (by decide)

/-! ## The repository archiver (logic/repository-archiver.js)

`RepositoryArchiver` rewrites source URLs to raw-content URLs
(`getRawFileURL`, lines 66-94), downloads the files named by a `package.json`
manifest (`downloadFilesFromRepository`, lines 209-230), packs the staging
directory into a tar.gz and returns an `ArchiveResult` holding the archive path
and the common package folder (`archiveRepository`, lines 241-276). -/

/-- A `package.json` manifest: `urls` is a list of
`[targetRelativePath, sourceUrl]` pairs, `deps` a list of
`[depUrlOrName, depVersion]` pairs. -/
structure PackageJson where
  name : Option Str := none
  version : Option Str := none
  urls : List (Str × Str) := []
  deps : List (Str × Str) := []

/-- `getRawFileURL(url, branch)`: folds `https://github.com/...` and
`https://gitlab.com/...` URLs into the `github:`/`gitlab:` short forms, then
rewrites those to raw-content URLs.  Everything else reaches the
`throw new Error('Not implemented yet')` branch (the `TODO` for the
micropython-lib index format). -/
def getRawFileURL (url branch : Str) : Except Str Str :=
  let url :=
    if (str "https://github.com").isPrefixOf url then
      replaceFirstSub (str "https://github.com/") (str "github:") url
    else if (str "https://gitlab.com").isPrefixOf url then
      replaceFirstSub (str "https://gitlab.com/") (str "gitlab:") url
    else url
  if !(str "github:").isPrefixOf url && !(str "gitlab:").isPrefixOf url then
    .error (str "Not implemented yet")
  else
    let urlParts := splitOnChar '/' (url.drop 7)
    let owner := urlParts.headD []
    let repoName := urlParts.getD 1 (str "undefined")
    let relPath := List.intercalate (str "/") (urlParts.drop 2)
    if (str "github:").isPrefixOf url then
      .ok (str "https://raw.githubusercontent.com/" ++ owner ++ str "/" ++ repoName
        ++ str "/" ++ branch ++ str "/" ++ relPath)
    else
      .ok (str "https://gitlab.com/" ++ owner ++ str "/" ++ repoName
        ++ str "/-/raw/" ++ branch ++ str "/" ++ relPath)

/-- `downloadFilesFromRepository`: downloads every `urls` entry of the manifest
(each download fetches `getRawFileURL(sourceUrl, version)` into the staging
directory under `targetRelativePath`).  The declared `deps` are not walked:
the recursive download over `packageJson.deps` is commented out in the source,
so the function returns after the root manifest's own files.  The result lists
the `(targetRelativePath, rawUrl)` downloads actually issued, in order. -/
def downloadFilesFromRepository (version : Str) (packageJson : PackageJson) :
    Except Str (List (Str × Str)) :=
  packageJson.urls.mapM fun entry =>
    (getRawFileURL entry.2 version).map fun raw => (entry.1, raw)

/-- `getRepoName()`: last `/`-segment of the repository URL, with `.git`
removed (JS `replace('.git', '')`, first occurrence). -/
def getRepoName (repoUrl : Str) : Str :=
  replaceFirstSub (str ".git") [] ((splitOnChar '/' repoUrl).getLastD [])

/-- The first `/`-separated component of a path. -/
def firstSeg (p : Str) : Str := (splitOnChar '/' p).headD []

/-- The folder contributed by one target path: its first path component when
the path contains a `/` (`parts.length > 1` in the source), `null` otherwise. -/
def folderOf (e : Str) : Option Str :=
  match splitOnChar '/' e with
  | p :: _ :: _ => some p
  | _ => none

/-- The first path components of those target paths that contain a `/`
(the `null` entries filtered out). -/
def multiSegFolders (targetPaths : List Str) : List Str :=
  targetPaths.filterMap folderOf

/-- `getPackageFolder(packageJsonData)`: the common first folder of the
target paths in `urls`; throws when no target path contains a folder or when
two of them name different folders. -/
def getPackageFolder (packageJson : PackageJson) : Except Str Str :=
  match multiSegFolders (packageJson.urls.map Prod.fst) with
  | [] => .error (str "The target paths in package.json do not contain any folders. Please ensure all files are in a folder.")
  | f :: rest =>
    if rest.all (· == f) then .ok f
    else .error (str "The target paths in package.json have different folders. Please ensure all files are in the same folder.")

/-- JS `version.replace(/^v/, '')`. -/
def stripLeadingV : Str → Str
  | 'v' :: rest => rest
  | v => v

/-- The value returned by `archiveRepository`: the path of the created tar.gz
and the common package folder.  (The class has no `packageFiles` field.) -/
structure ArchiveResult where
  archivePath : Str
  packageFolder : Str
deriving DecidableEq

/-- Observable outcome of `archiveRepository`: whether `createTarGzArchive`
ran, and the returned `ArchiveResult` or the thrown error.  The tar.gz is
created before `getPackageFolder` is consulted, so `tarCreated` holds even on
the error path. -/
structure ArchiveOutcome where
  tarCreated : Bool
  result : Except Str ArchiveResult

/-- `archiveRepository` after the downloads have succeeded and produced the
manifest `packageJson` (the custom manifest, or the fetched `package.json`):
computes the archive name `<packageName>-<versionForTarFile>.tar.gz`, creates
the tar.gz in `targetDirectory`, and returns
`new ArchiveResult(tarGzPath, this.getPackageFolder(packageJson))`. -/
def archiveRepository (repoUrl version targetDirectory : Str) (packageJson : PackageJson) :
    ArchiveOutcome :=
  let packageName := packageJson.name.getD (getRepoName repoUrl)
  let repoVersion := stripLeadingV version
  let versionForTarFile :=
    packageJson.version.getD (if repoVersion == str "HEAD" then str "latest" else repoVersion)
  let tarGzFileName := packageName ++ str "-" ++ versionForTarFile ++ str ".tar.gz"
  let tarGzPath := targetDirectory ++ str "/" ++ tarGzFileName
  { tarCreated := true
    result := (getPackageFolder packageJson).map fun folder =>
      { archivePath := tarGzPath, packageFolder := folder } }

/-- `true` on `Except.ok`, `false` on `Except.error`. -/
def exceptOk {ε α : Type} : Except ε α → Bool
  | .ok _ => true
  | .error _ => false

/-- The manifest of scenario 2 of the spec: two files under `modulino/`. -/
def modulinoManifest : PackageJson :=
  { urls := [(str "modulino/__init__.py", str "github:arduino/modulino-mpy/src/modulino/__init__.py"),
             (str "modulino/buttons.py", str "github:arduino/modulino-mpy/src/modulino/buttons.py")] }

/-- A manifest that declares one file and one dependency. -/
def depManifest : PackageJson :=
  { urls := [(str "modulino/__init__.py", str "github:arduino/modulino-mpy/src/modulino/__init__.py")],
    deps := [(str "github:arduino/arduino-iot-cloud-py", str "1.0.0")] }

/-- C7: a URL that starts with `https://` but is neither a `github.com` nor a
`gitlab.com` URL is not returned unchanged: `getRawFileURL` throws
`'Not implemented yet'`.  For the same reason the rewrite is not idempotent:
re-rewriting an already-rewritten (raw.githubusercontent.com) URL throws too. -/
theorem getRawFileURL_not_implemented :
    getRawFileURL (str "https://example.com/ucloud.py") (str "HEAD")
        = .error (str "Not implemented yet") ∧
      getRawFileURL (str "https://raw.githubusercontent.com/arduino/modulino-mpy/HEAD/src/modulino/__init__.py")
          (str "HEAD") = .error (str "Not implemented yet") := by
  constructor <;> rfl

/-- C2: the dependency walk does not happen.  `downloadFilesFromRepository` is
insensitive to the `deps` list, and on a manifest declaring a dependency the
downloads issued are exactly the root manifest's own `urls` entries — nothing
of the dependency is fetched. -/
theorem downloadFilesFromRepository_ignores_deps :
    (∀ (version : Str) (packageJson : PackageJson) (deps : List (Str × Str)),
        downloadFilesFromRepository version { packageJson with deps := deps }
          = downloadFilesFromRepository version packageJson) ∧
      downloadFilesFromRepository (str "HEAD") depManifest
        = .ok [(str "modulino/__init__.py",
            str "https://raw.githubusercontent.com/arduino/modulino-mpy/HEAD/src/modulino/__init__.py")] := by
  exact ⟨fun _ _ _ => rfl, rfl⟩

/-- C1: on a successfully archived package, `archiveRepository` returns an
`ArchiveResult` carrying the archive path and the single common package folder
(here `"modulino"`), not the list of target-relative paths: the class has no
`packageFiles` field, although `packager.js` reads `archiveResult.packageFiles`. -/
theorem archiveRepository_returns_single_folder :
    archiveRepository (str "https://github.com/arduino/arduino-modulino-mpy") (str "HEAD")
        (str "/tmp/out") modulinoManifest =
      { tarCreated := true
        result := .ok { archivePath := str "/tmp/out/arduino-modulino-mpy-latest.tar.gz",
                        packageFolder := str "modulino" } } := by
  rfl

theorem splitOnChar_ne_nil (sep : Char) : ∀ l : Str, splitOnChar sep l ≠ []
  | [] => by simp [splitOnChar]
  | c :: cs => by
    simp only [splitOnChar]
    split
    · simp
    · split <;> simp

/-- A path has at least two `/`-separated components iff it contains a `/`. -/
theorem mem_iff_two_le_splitOnChar (sep : Char) (l : Str) :
    sep ∈ l ↔ 2 ≤ (splitOnChar sep l).length := by
  induction l with
  | nil => simp [splitOnChar]
  | cons c cs ih =>
    simp only [splitOnChar]
    by_cases hc : c = sep
    · rw [if_pos hc]
      subst hc
      simp only [List.length_cons]
      have hpos : 0 < (splitOnChar c cs).length :=
        List.length_pos.mpr (splitOnChar_ne_nil c cs)
      exact ⟨fun _ => by omega, fun _ => List.mem_cons_self c cs⟩
    · rw [if_neg hc]
      cases hr : splitOnChar sep cs with
      | nil => exact absurd hr (splitOnChar_ne_nil sep cs)
      | cons p ps =>
        rw [hr] at ih
        simp only [List.length_cons] at ih ⊢
        rw [List.mem_cons]
        constructor
        · rintro (h | h)
          · exact absurd h.symm hc
          · exact ih.mp h
        · intro h
          exact Or.inr (ih.mpr h)

/-- `folderOf` succeeds exactly on the paths containing a `/`, and then yields
the first path component. -/
theorem folderOf_eq (e : Str) :
    folderOf e = if '/' ∈ e then some (firstSeg e) else none := by
  unfold folderOf
  rcases hs : splitOnChar '/' e with _ | ⟨p, _ | ⟨q, rest⟩⟩
  · exact absurd hs (splitOnChar_ne_nil '/' e)
  · rw [if_neg]
    intro hm
    have := (mem_iff_two_le_splitOnChar '/' e).mp hm
    rw [hs] at this
    simp at this
  · rw [if_pos]
    · simp [firstSeg, hs]
    · apply (mem_iff_two_le_splitOnChar '/' e).mpr
      rw [hs]
      simp

theorem mem_multiSegFolders (targetPaths : List Str) (x : Str) :
    x ∈ multiSegFolders targetPaths ↔
      ∃ p ∈ targetPaths, '/' ∈ p ∧ firstSeg p = x := by
  unfold multiSegFolders
  rw [List.mem_filterMap]
  constructor
  · rintro ⟨p, hp, he⟩
    rw [folderOf_eq] at he
    split at he
    · exact ⟨p, hp, by assumption, by injection he⟩
    · exact absurd he (by simp)
  · rintro ⟨p, hp, hm, hf⟩
    exact ⟨p, hp, by rw [folderOf_eq, if_pos hm, hf]⟩

theorem multiSegFolders_ne_nil (targetPaths : List Str) :
    multiSegFolders targetPaths ≠ [] ↔ ∃ p ∈ targetPaths, '/' ∈ p := by
  constructor
  · intro h
    rcases List.exists_mem_of_ne_nil _ h with ⟨x, hx⟩
    rcases (mem_multiSegFolders targetPaths x).mp hx with ⟨p, hp, hm, _⟩
    exact ⟨p, hp, hm⟩
  · rintro ⟨p, hp, hm⟩
    intro hnil
    have : firstSeg p ∈ multiSegFolders targetPaths :=
      (mem_multiSegFolders targetPaths _).mpr ⟨p, hp, hm, rfl⟩
    rw [hnil] at this
    exact absurd this (List.not_mem_nil _)

/-- `getPackageFolder` succeeds exactly when the folders list is non-empty and
uniform. -/
theorem getPackageFolder_ok_iff (packageJson : PackageJson) :
    exceptOk (getPackageFolder packageJson) = true ↔
      (multiSegFolders (packageJson.urls.map Prod.fst) ≠ [] ∧
        ∀ x ∈ multiSegFolders (packageJson.urls.map Prod.fst),
          ∀ y ∈ multiSegFolders (packageJson.urls.map Prod.fst), x = y) := by
  unfold getPackageFolder
  split
  · rename_i heq
    rw [heq]
    simp [exceptOk]
  · rename_i f rest heq
    rw [heq]
    by_cases hall : (rest.all fun x => x == f) = true
    · rw [if_pos hall]
      simp only [exceptOk, true_iff, ne_eq, reduceCtorEq, not_false_eq_true, true_and]
      have hx : ∀ x ∈ f :: rest, x = f := by
        intro x hx
        rcases List.mem_cons.mp hx with h | h
        · exact h
        · exact beq_iff_eq.mp (List.all_eq_true.mp hall x h)
      intro x hx' y hy'
      rw [hx x hx', hx y hy']
    · rw [if_neg hall]
      simp only [exceptOk, false_iff, not_and, ne_eq, reduceCtorEq, not_false_eq_true,
        forall_const]
      intro huni
      apply hall
      apply List.all_eq_true.mpr
      intro x hx
      exact beq_iff_eq.mpr
        (huni x (List.mem_cons_of_mem f hx) f (List.mem_cons_self f rest))

/-- C10: `getPackageFolder` succeeds iff at least one target path in `urls`
contains a `/` and all such multi-segment paths share the same first path
component; and `archiveRepository` creates the tar.gz regardless, then succeeds
or throws exactly as `getPackageFolder` does — so it rejects, after creating
the tar file, every package whose files span two distinct top-level folders or
consist only of root-level files. -/
theorem getPackageFolder_requires_common_folder (packageJson : PackageJson) :
    (exceptOk (getPackageFolder packageJson) = true ↔
      ((∃ p ∈ packageJson.urls.map Prod.fst, '/' ∈ p) ∧
        ∀ p ∈ packageJson.urls.map Prod.fst, ∀ q ∈ packageJson.urls.map Prod.fst,
          '/' ∈ p → '/' ∈ q → firstSeg p = firstSeg q)) ∧
    ∀ repoUrl version targetDirectory,
      (archiveRepository repoUrl version targetDirectory packageJson).tarCreated = true ∧
        exceptOk (archiveRepository repoUrl version targetDirectory packageJson).result
          = exceptOk (getPackageFolder packageJson) := by
  constructor
  · rw [getPackageFolder_ok_iff]
    constructor
    · rintro ⟨hne, huni⟩
      refine ⟨(multiSegFolders_ne_nil _).mp hne, ?_⟩
      intro p hp q hq hmp hmq
      exact huni (firstSeg p) ((mem_multiSegFolders _ _).mpr ⟨p, hp, hmp, rfl⟩)
        (firstSeg q) ((mem_multiSegFolders _ _).mpr ⟨q, hq, hmq, rfl⟩)
    · rintro ⟨hex, huni⟩
      refine ⟨(multiSegFolders_ne_nil _).mpr hex, ?_⟩
      intro x hx y hy
      rcases (mem_multiSegFolders _ _).mp hx with ⟨p, hp, hmp, hfp⟩
      rcases (mem_multiSegFolders _ _).mp hy with ⟨q, hq, hmq, hfq⟩
      rw [← hfp, ← hfq]
      exact huni p hp q hq hmp hmq
  · intro repoUrl version targetDirectory
    refine ⟨rfl, ?_⟩
    cases h : getPackageFolder packageJson <;>
      simp [archiveRepository, exceptOk, h, Except.map]

theorem getPackageFolder_requires_common_folder_witness :
    exceptOk (getPackageFolder modulinoManifest) = true :=
  ((getPackageFolder_requires_common_folder modulinoManifest).1).mpr
    ⟨⟨str "modulino/__init__.py", by decide, by decide⟩, by decide⟩

/-! ## The package installer (the current `PackageInstaller`, wired to
`packager.js` via `installPackage(packageTarFilePath, packageFiles, ...)`)

`installPackage` derives the package folders and the root-level files from
`packageFiles`; with overwriting disabled it fails before uploading when a root
file or a package folder already exists under the library path; otherwise it
uploads the archive (chunked write + hash verification), extracts it, and in a
`finally` block always removes the archive from the board.  The board
filesystem is modelled by the predicate `ex` (`fileOrDirectoryExists`), the
resolved library path by `libPath`. -/

/-- The board-affecting steps of an install, in order. -/
inductive InstallAction where
  | deleteFolder (path : Str)
  | upload (src tgt : Str)
  | verifyHash (src tgt : Str)
  | extract (tgt : Str)
  | cleanUp (tgt : Str)
deriving DecidableEq

/-- JS `[...new Set(folders)]`: duplicates removed, first occurrences kept. -/
def dedupFirst : List Str → List Str := go []
where
  go (seen : List Str) : List Str → List Str
  | [] => []
  | x :: xs => if x ∈ seen then go seen xs else x :: go (x :: seen) xs

/-- `getPackageFolders(targetPaths)` of the installer: the distinct first path
components of the multi-segment target paths (no error on zero or several). -/
def getPackageFolders (targetPaths : List Str) : List Str :=
  dedupFirst (multiSegFolders targetPaths)

/-- The loop over `filesInLibRoot` when `overwriteExisting` is false: the first
existing root file aborts the install. -/
def checkRootFiles (ex : Str → Bool) (libPath : Str) : List Str → Option Str
  | [] => none
  | f :: fs =>
    if ex (pathJoin libPath f) then
      some (str "Installation would overwrite existing file in the root of the lib folder: " ++ f)
    else checkRootFiles ex libPath fs

/-- The loop over `packageFolders`: an existing folder is deleted when
overwriting is enabled, otherwise it aborts the install. -/
def processFolders (ex : Str → Bool) (libPath : Str) (overwriteExisting : Bool) :
    List Str → List InstallAction × Option Str
  | [] => ([], none)
  | f :: fs =>
    if ex (pathJoin libPath f) then
      if overwriteExisting then
        ((.deleteFolder (pathJoin libPath f)) ::
            (processFolders ex libPath overwriteExisting fs).1,
          (processFolders ex libPath overwriteExisting fs).2)
      else ([], some (str "Installation would overwrite existing package folder: " ++ f))
    else processFolders ex libPath overwriteExisting fs

/-- The wrapping applied by `installPackage`'s catch block. -/
def installError (e : Str) : Str := str "Couldn't install package: " ++ e

/-- `installPackage(packageTarFilePath, packageFiles, overwriteExisting)`:
returns the actions performed on the board and the error thrown, if any.  The
`cleanUp` of the uploaded archive runs on every path (the `finally` block). -/
def installPackage (ex : Str → Bool) (libPath packageTarFilePath : Str)
    (packageFiles : List Str) (overwriteExisting : Bool) :
    List InstallAction × Option Str :=
  let targetFilePath := basename packageTarFilePath
  let packageFolders := getPackageFolders packageFiles
  let filesInLibRoot := packageFiles.filter fun f => (splitOnChar '/' f).length == 1
  match if overwriteExisting then none else checkRootFiles ex libPath filesInLibRoot with
  | some e => ([.cleanUp targetFilePath], some (installError e))
  | none =>
    match processFolders ex libPath overwriteExisting packageFolders with
    | (actions, some e) => (actions ++ [.cleanUp targetFilePath], some (installError e))
    | (actions, none) =>
      (actions ++
        [.upload packageTarFilePath targetFilePath,
          .verifyHash packageTarFilePath targetFilePath,
          .extract targetFilePath,
          .cleanUp targetFilePath], none)

/-- Any error produced by the root-file check would overwrite existing content. -/
theorem checkRootFiles_msg (ex : Str → Bool) (libPath : Str) :
    ∀ (fs : List Str) (e : Str), checkRootFiles ex libPath fs = some e →
      (str "Installation would overwrite existing").isPrefixOf e = true := by
  intro fs
  induction fs with
  | nil => intro e h; exact absurd h (by simp [checkRootFiles])
  | cons f fs ih =>
    intro e h
    rw [checkRootFiles] at h
    split at h
    · cases h
      have hsplit :
          str "Installation would overwrite existing file in the root of the lib folder: "
            = str "Installation would overwrite existing"
              ++ str " file in the root of the lib folder: " := rfl
      rw [hsplit, List.append_assoc, List.isPrefixOf_iff_prefix]
      exact List.prefix_append _ _
    · exact ih e h

/-- With overwriting disabled the folder loop deletes nothing, its error (if
any) is a would-overwrite error, and an existing folder forces an error. -/
theorem processFolders_no_overwrite (ex : Str → Bool) (libPath : Str) :
    ∀ fs : List Str,
      (processFolders ex libPath false fs).1 = [] ∧
      (∀ e, (processFolders ex libPath false fs).2 = some e →
        (str "Installation would overwrite existing").isPrefixOf e = true) ∧
      ((∃ f ∈ fs, ex (pathJoin libPath f) = true) →
        (processFolders ex libPath false fs).2 ≠ none) := by
  intro fs
  induction fs with
  | nil =>
    refine ⟨rfl, fun e h => absurd h (by simp [processFolders]), ?_⟩
    rintro ⟨f, hf, -⟩
    exact absurd hf (List.not_mem_nil f)
  | cons f fs ih =>
    by_cases hex : ex (pathJoin libPath f) = true
    · refine ⟨by simp [processFolders, hex], ?_, ?_⟩
      · intro e h
        simp only [processFolders, hex, if_true, if_false, Bool.false_eq_true] at h
        cases h
        have hsplit :
            str "Installation would overwrite existing package folder: "
              = str "Installation would overwrite existing"
                ++ str " package folder: " := rfl
        rw [hsplit, List.append_assoc, List.isPrefixOf_iff_prefix]
        exact List.prefix_append _ _
      · intro _
        simp [processFolders, hex]
    · have hstep : processFolders ex libPath false (f :: fs) = processFolders ex libPath false fs := by
        simp [processFolders, hex]
      refine ⟨hstep ▸ ih.1, hstep ▸ ih.2.1, ?_⟩
      rintro ⟨g, hg, hexg⟩
      rcases List.mem_cons.mp hg with h | h
      · exact absurd (h ▸ hexg) hex
      · exact hstep ▸ ih.2.2 ⟨g, h, hexg⟩

/-- C5: with `overwriteExisting == false`, when some package folder (a first
path component of a `packageFiles` entry containing `/`) already exists under
the library path, `installPackage` fails with a would-overwrite error and no
upload, hash verification, or extraction is performed (only the `finally`
clean-up runs). -/
theorem installPackage_no_upload_when_folder_exists (ex : Str → Bool)
    (libPath packageTarFilePath : Str) (packageFiles : List Str)
    (h : ∃ folder ∈ getPackageFolders packageFiles, ex (pathJoin libPath folder) = true) :
    (∃ m, (installPackage ex libPath packageTarFilePath packageFiles false).2 = some m ∧
        (str "Couldn't install package: Installation would overwrite existing").isPrefixOf m
          = true) ∧
    ∀ a ∈ (installPackage ex libPath packageTarFilePath packageFiles false).1,
      (∀ s t, a ≠ .upload s t) ∧ (∀ s t, a ≠ .verifyHash s t) ∧ ∀ t, a ≠ .extract t := by
  have hwrap : ∀ e : Str, (str "Installation would overwrite existing").isPrefixOf e = true →
      (str "Couldn't install package: Installation would overwrite existing").isPrefixOf
        (installError e) = true := by
    intro e he
    have hsplit : str "Couldn't install package: Installation would overwrite existing"
        = str "Couldn't install package: " ++ str "Installation would overwrite existing" := rfl
    rw [installError, hsplit, List.isPrefixOf_iff_prefix]
    exact (List.prefix_append_right_inj _).mpr (List.isPrefixOf_iff_prefix.mp he)
  rcases hroot : checkRootFiles ex libPath
      (packageFiles.filter fun f => (splitOnChar '/' f).length == 1) with _ | e
  · -- no root-file conflict: the folder loop must fail
    have hpf := processFolders_no_overwrite ex libPath (getPackageFolders packageFiles)
    rcases hpe : (processFolders ex libPath false (getPackageFolders packageFiles)).2 with _ | e
    · exact absurd hpe (hpf.2.2 h)
    · have hinst : installPackage ex libPath packageTarFilePath packageFiles false
          = ((processFolders ex libPath false (getPackageFolders packageFiles)).1
              ++ [.cleanUp (basename packageTarFilePath)], some (installError e)) := by
        rw [installPackage, hroot]
        rcases hp : processFolders ex libPath false (getPackageFolders packageFiles) with ⟨a, b⟩
        rw [hp] at hpe
        simp only at hpe
        rw [hpe]
        simp [hp]
      refine ⟨⟨installError e, by rw [hinst], hwrap e (hpf.2.1 e hpe)⟩, ?_⟩
      intro a ha
      rw [hinst, hpf.1] at ha
      simp only [List.nil_append, List.mem_singleton] at ha
      subst ha
      exact ⟨fun s t => by simp, fun s t => by simp, fun t => by simp⟩
  · have hinst : installPackage ex libPath packageTarFilePath packageFiles false
        = ([.cleanUp (basename packageTarFilePath)], some (installError e)) := by
      rw [installPackage, hroot]
      rfl
    refine ⟨⟨installError e, by rw [hinst], hwrap e (checkRootFiles_msg ex libPath _ e hroot)⟩, ?_⟩
    intro a ha
    rw [hinst] at ha
    simp only [List.mem_singleton] at ha
    subst ha
    exact ⟨fun s t => by simp, fun s t => by simp, fun t => by simp⟩

theorem installPackage_no_upload_when_folder_exists_witness :
    (∃ m, (installPackage (fun p => p == str "/lib/modulino") (str "/lib")
          (str "/tmp/modulino-1.0.0.tar.gz") [str "modulino/__init__.py"] false).2 = some m ∧
        (str "Couldn't install package: Installation would overwrite existing").isPrefixOf m
          = true) ∧
    ∀ a ∈ (installPackage (fun p => p == str "/lib/modulino") (str "/lib")
        (str "/tmp/modulino-1.0.0.tar.gz") [str "modulino/__init__.py"] false).1,
      (∀ s t, a ≠ .upload s t) ∧ (∀ s t, a ≠ .verifyHash s t) ∧ ∀ t, a ≠ .extract t :=
  installPackage_no_upload_when_folder_exists (fun p => p == str "/lib/modulino") (str "/lib")
    (str "/tmp/modulino-1.0.0.tar.gz") [str "modulino/__init__.py"]
    ⟨str "modulino", by decide, by decide⟩

/-! ## The archive hash verifier (package-installer.js `verifyHash` /
`uploadArchive`)

`uploadArchive` transfers the archive with the chunked writer and then runs
`verifyHash`, which computes the SHA-256 of the local archive and asks the
board to run `validate_hash('<target>', b'<localHash>')`; the board prints `1`
or `0` and a `0` raises `Hash mismatch`.  The abstract `sha256` digest
function, the local filesystem and the board filesystem after the upload are
parameters. -/

/-- Modelled from the spec: the on-device helper script `validate_hash.py` is
not part of the source snapshot (only its invocation is); per the spec it
"reads the remote file, computes SHA-256 on the device, and returns `1` or `0`
depending on equality" with the expected hex digest. -/
def validate_hash (remoteFiles : Str → List Nat) (sha256 : List Nat → Str)
    (targetFile expected : Str) : Nat :=
  if sha256 (remoteFiles targetFile) == expected then 1 else 0

/-- `verifyHash(filePath, targetFile)`: board output `'1'` means match. -/
def verifyHash (remoteFiles : Str → List Nat) (sha256 : List Nat → Str)
    (localFiles : Str → List Nat) (filePath targetFile : Str) : Bool :=
  validate_hash remoteFiles sha256 targetFile (sha256 (localFiles filePath)) == 1

/-- The verification step of `uploadArchive`, after the chunked transfer has
left the board file `targetFilePath` with contents `remoteFiles targetFilePath`:
throws `Hash mismatch` exactly when `verifyHash` answers false. -/
def uploadArchive (remoteFiles : Str → List Nat) (sha256 : List Nat → Str)
    (localFiles : Str → List Nat) (sourceFilePath targetFilePath : Str) : Except Str Unit :=
  if verifyHash remoteFiles sha256 localFiles sourceFilePath targetFilePath then .ok ()
  else .error (str "Hash mismatch")

/-- C6: `uploadArchive` raises a hash-mismatch error if and only if the
SHA-256 digest computed on the board for the uploaded file differs from the
digest of the local archive; consequently every install that proceeds past the
upload satisfies `localSha256 == remoteSha256` at the moment of verification. -/
theorem uploadArchive_hash_check (remoteFiles : Str → List Nat) (sha256 : List Nat → Str)
    (localFiles : Str → List Nat) (sourceFilePath targetFilePath : Str) :
    (uploadArchive remoteFiles sha256 localFiles sourceFilePath targetFilePath
        = .error (str "Hash mismatch")
      ↔ sha256 (remoteFiles targetFilePath) ≠ sha256 (localFiles sourceFilePath)) ∧
    (exceptOk (uploadArchive remoteFiles sha256 localFiles sourceFilePath targetFilePath) = true
      ↔ sha256 (remoteFiles targetFilePath) = sha256 (localFiles sourceFilePath)) := by
  by_cases heq : sha256 (remoteFiles targetFilePath) = sha256 (localFiles sourceFilePath)
  · constructor
    · simp [uploadArchive, verifyHash, validate_hash, heq, exceptOk]
    · simp [uploadArchive, verifyHash, validate_hash, heq, exceptOk]
  · constructor
    · simp [uploadArchive, verifyHash, validate_hash, heq, exceptOk]
    · simp [uploadArchive, verifyHash, validate_hash, heq, exceptOk]

theorem uploadArchive_hash_check_witness :
    exceptOk (uploadArchive (fun _ => [1]) (fun _ => str "aa") (fun _ => [1])
        (str "pkg.tar.gz") (str "pkg.tar.gz")) = true :=
  ((uploadArchive_hash_check (fun _ => [1]) (fun _ => str "aa") (fun _ => [1])
      (str "pkg.tar.gz") (str "pkg.tar.gz")).2).mpr rfl

/-! ## The packager orchestrator (logic/packager.js `package`, lines 95-123)

`package()` first opens the serial port whenever it is not already open —
unconditionally, before and regardless of the `compileFiles` check — then
queries the board architecture and mpy format only when `compileFiles` is true,
builds the archive (no further board traffic), and closes the port when
`closePort` is set.  The board-facing actions are modelled in order. -/

/-- Board-session operations performed by `package()`. -/
inductive BoardAction where
  | openPort
  | getArchitecture
  | getMPyFormat
  | closePort
deriving DecidableEq

/-- The sequence of board actions of one `package()` call, given whether the
serial port is already open, the `compileFiles` flag, and the `closePort`
argument. -/
def packageBoardActions (serialOpen compileFiles closePort : Bool) : List BoardAction :=
  (if serialOpen then [] else [.openPort]) ++
  (if compileFiles then [.getArchitecture, .getMPyFormat] else []) ++
  (if closePort then [.closePort] else [])

/-- C8 counterexample: with `compileFiles == false` and the port not yet open,
`package()` still opens the board session. -/
theorem package_opens_port_without_compilation :
    BoardAction.openPort ∈ packageBoardActions false false true := by decide

/-- C8 (amended): `package()` opens the board session whenever the port is not
already open, regardless of `compileFiles`; the board queries (architecture and
mpy format) are performed if and only if `compileFiles` is true. -/
theorem packageBoardActions_spec :
    ∀ serialOpen compileFiles closePort : Bool,
      ((BoardAction.openPort ∈ packageBoardActions serialOpen compileFiles closePort)
        ↔ serialOpen = false) ∧
      ((BoardAction.getArchitecture ∈ packageBoardActions serialOpen compileFiles closePort)
        ↔ compileFiles = true) ∧
      ((BoardAction.getMPyFormat ∈ packageBoardActions serialOpen compileFiles closePort)
        ↔ compileFiles = true) := by
  decide

theorem packageBoardActions_spec_witness :
    BoardAction.getArchitecture ∉ packageBoardActions true false true :=
  fun hmem => by
    have := ((packageBoardActions_spec true false true).2.1).mp hmem
    exact Bool.noConfusion this

end UpyPackager
